import Mathlib

set_option linter.unusedVariables false

namespace CargoToJunit

/-!
Shallow embedding of `src/main.rs` of the cargo2junit converter.

Strings are modelled as lists of characters; all claim-relevant inputs are
ASCII, so characters and bytes coincide and Rust byte lengths are list
lengths.  `f64` values are modelled as rationals: every decimal literal
appearing in the claims is exactly representable in `f64`, and `as i64`
casts are modelled as truncation toward zero.  Code that can panic is
modelled as returning `Option`/`Except`.
-/

/-- The `"[...TRUNCATED...]"` marker used by `truncate` in src/main.rs. -/
def truncMarker : List Char := "[...TRUNCATED...]".toList

/-- `truncate` from src/main.rs (nested in the `TestEvent::Failed` arm).
`none` models the `usize` underflow panic of `max_len - truncated_msg.len()`
that occurs when `max_len < truncated_msg.len()` in the truncation branch. -/
def truncate (s : List Char) (maxLen : Nat) : Option (List Char) :=
  if maxLen < s.length then
    if truncMarker.length ≤ maxLen then
      let half := (maxLen - truncMarker.length) / 2
      some (s.take half ++ '\n' :: (truncMarker ++ '\n' :: s.drop (s.length - half)))
    else
      none
  else
    some s

/-- `full_name.split("::")` from `split_name` in src/main.rs: splits on the
leftmost non-overlapping occurrences of the two-character separator. -/
def splitOnSep : List Char → List (List Char)
  | [] => [[]]
  | [c] => [[c]]
  | c₁ :: c₂ :: rest =>
    if c₁ = ':' ∧ c₂ = ':' then
      [] :: splitOnSep rest
    else
      match splitOnSep (c₂ :: rest) with
      | [] => [[c₁]]
      | p :: ps => (c₁ :: p) :: ps

/-- `parts.join("::")`: the inverse image of `splitOnSep`. -/
def joinSep : List (List Char) → List Char
  | [] => []
  | [p] => p
  | p :: q :: ps => p ++ ':' :: ':' :: joinSep (q :: ps)

/-- `split_name` from src/main.rs: the popped last segment is the leaf name,
the remaining segments joined by `"::"` are the module path. -/
def split_name (full : List Char) : List Char × List Char :=
  ((splitOnSep full).getLast?.getD [], joinSep (splitOnSep full).dropLast)

/-- The tail of a match of the regex fragment `([Ee]rror: .+)$` compiled with
default flags: the text must begin with `Error: ` or `error: ` and the rest
(`.+`, which never matches a newline) must be nonempty and reach the end of
the haystack (`$` is an end-of-haystack anchor without the multi-line flag). -/
def errTail : List Char → Bool
  | 'E' :: 'r' :: 'r' :: 'o' :: 'r' :: ':' :: ' ' :: rest =>
    !rest.isEmpty && rest.all (fun c => c != '\n')
  | 'e' :: 'r' :: 'r' :: 'o' :: 'r' :: ':' :: ' ' :: rest =>
    !rest.isEmpty && rest.all (fun c => c != '\n')
  | _ => false

/-- Leftmost match of the regex `[\n^]([Ee]rror: .+)$` from `detect_error` in
src/main.rs.  Inside a character class a non-leading `^` is a literal, so a
match starts with a newline or a literal caret character, and extends to the
end of the haystack.  Returns the whole matched text (`body.as_str()`). -/
def findError : List Char → Option (List Char)
  | [] => none
  | c :: rest =>
    if (c = '\n' ∨ c = '^') ∧ errTail rest then some (c :: rest)
    else findError rest

/-- Rust `str::trim`: removes leading and trailing whitespace. -/
def trimChars (l : List Char) : List Char :=
  ((l.dropWhile Char.isWhitespace).reverse.dropWhile Char.isWhitespace).reverse

/-- `detect_error` from src/main.rs: a non-whitespace stderr is returned
verbatim; otherwise the regex match on stdout is returned trimmed. -/
def detect_error (stdout stderr : Option (List Char)) : Option (List Char) :=
  let fromOut : Option (List Char) :=
    match stdout with
    | some out => (findError out).map trimChars
    | none => none
  match stderr with
  | some body => if trimChars body ≠ [] then some body else fromOut
  | none => fromOut

/-- Value of a list of decimal digit characters, most significant first. -/
def digitsVal (l : List Char) : Nat :=
  l.foldl (fun acc c => acc * 10 + (c.toNat - 48)) 0

/-- Plain decimal forms accepted by Rust's `str::parse::<f64>` (`D+`,
`D+.D*`, `.D+`), parsed exactly into `ℚ`.  This abstracts `f64` parsing; it
is exact on every input appearing in the claims. -/
def parseUnsignedDec (l : List Char) : Option ℚ :=
  let ip := l.takeWhile Char.isDigit
  let rest := l.dropWhile Char.isDigit
  match rest with
  | [] => if ip = [] then none else some (digitsVal ip)
  | '.' :: fp =>
    if fp.all Char.isDigit ∧ (ip ≠ [] ∨ fp ≠ []) then
      some ((digitsVal ip : ℚ) + (digitsVal fp : ℚ) / (10 : ℚ) ^ fp.length)
    else none
  | _ => none

/-- Decimal parsing with an optional sign. -/
def parseDec : List Char → Option ℚ
  | '-' :: rest => (parseUnsignedDec rest).map (fun q => -q)
  | '+' :: rest => parseUnsignedDec rest
  | l => parseUnsignedDec l

/-- Rust `as i64` on a real value: truncation toward zero. -/
def truncQ (q : ℚ) : Int := if 0 ≤ q then ⌊q⌋ else ⌈q⌉

/-- The string exec-time branch of `Event::get_duration`: asserts the literal
`'s'` suffix, strips it, and parses the remainder as a float.  `none` models
the assertion/`unwrap` panics. -/
def parseExecTime (s : List Char) : Option ℚ :=
  if s.getLast? = some 's' then parseDec s.dropLast else none

/-- `SuiteEvent` from src/main.rs. -/
inductive SuiteEvent
  | started (test_count : Nat)
  | ok (passed failed : Nat)
  | failed (passed failed : Nat)
deriving DecidableEq

/-- `TestEvent` from src/main.rs. -/
inductive TestEvent
  | started (name : List Char)
  | ok (name : List Char)
  | failed (name : List Char) (stdout stderr : Option (List Char))
  | ignored (name : List Char)
  | timeout (name : List Char)
deriving DecidableEq

/-- `Event` from src/main.rs: suite events, and test events carrying the two
optional duration encodings (string exec-time or numeric exec-time). -/
inductive Event
  | suite (event : SuiteEvent)
  | testStringTime (event : TestEvent) (duration : Option ℚ) (exec_time : Option (List Char))
  | testFloatTime (event : TestEvent) (duration : Option ℚ) (exec_time : Option ℚ)
deriving DecidableEq

/-- `Event::get_duration` from src/main.rs.  The outer `Option` models the
panics (the unconditional one on suite events, the `'s'`-suffix assertion and
the `f64`-parse `unwrap`); the inner `Option` is the function's own optional
result, in integer nanoseconds. -/
def Event.get_duration : Event → Option (Option Int)
  | .suite _ => none
  | .testStringTime _ dur exec =>
    match dur, exec with
    | _, some s => (parseExecTime s).map (fun q => some (truncQ (q * 1000000000)))
    | some ms, none => some (some (truncQ (ms * 1000000)))
    | none, none => some none
  | .testFloatTime _ dur exec =>
    match dur, exec with
    | _, some sec => some (some (truncQ (sec * 1000000000)))
    | some ms, none => some (some (truncQ (ms * 1000000)))
    | none, none => some none

/-- `DurationPrecision` from src/main.rs. -/
inductive DurationPrecision
  | milliSeconds
  | literalSeconds
deriving DecidableEq

/-- `DurationPrecision::trunc` from src/main.rs, on integer nanoseconds:
`MilliSeconds` truncates to whole microseconds, `LiteralSeconds` to whole
seconds (`Int.div` is the toward-zero division of the underlying library). -/
def DurationPrecision.trunc (p : DurationPrecision) (d : Int) : Int :=
  match p with
  | .milliSeconds => (Int.tdiv d 1000) * 1000
  | .literalSeconds => (Int.tdiv d 1000000000) * 1000000000

/-- A produced test case: leaf name, optional classname (the module path),
and status.  Mirrors what src/main.rs stores into the `junit_report` model. -/
inductive CaseStatus
  | success (duration : Option Int)
  | failure (duration : Int) (ctype message : List Char)
      (systemOut systemErr : Option (List Char))
  | skipped
deriving DecidableEq

/-- One test case of the report model. -/
structure TestCaseM where
  name : List Char
  classname : Option (List Char)
  status : CaseStatus
deriving DecidableEq

/-- One suite of the report model: display name, the fixed run timestamp it
was stamped with, and its ordered cases. -/
structure SuiteM where
  name : List Char
  timestamp : Int
  cases : List TestCaseM
deriving DecidableEq

/-- The configuration `parse` receives: suite-name prefix string, fixed run
timestamp, maximum captured-text length, duration precision. -/
structure Config where
  namePre : List Char
  timestamp : Int
  maxOutLen : Nat
  precision : DurationPrecision

/-- The mutable state of `parse` in src/main.rs: the report built so far, the
global suite counter, the optional active suite, and the pending-test map
(name to wall-clock start instant, modelled as an association list). -/
structure ParseState where
  report : List SuiteM
  suite_index : Nat
  current : Option SuiteM
  tests : List (List Char × Int)
deriving DecidableEq

/-- The distinct panics of the `parse` state machine in src/main.rs. -/
inductive PErr
  | suiteActive
  | pendingAtStart
  | pendingAtEnd
  | noSuiteAtEnd
  | testOutsideSuite
  | durationPanic
  | dupStart
  | unknownTest
  | truncPanic
deriving DecidableEq

/-- `HashMap` lookup on the pending-test association list. -/
def lookupTest : List (List Char × Int) → List Char → Option Int
  | [], _ => none
  | (k, v) :: rest, n => if k = n then some v else lookupTest rest n

/-- `HashMap::remove` on the pending-test association list. -/
def removeTest : List (List Char × Int) → List Char → List (List Char × Int)
  | [], _ => []
  | (k, v) :: rest, n => if k = n then rest else (k, v) :: removeTest rest n

/-- Suite display name `format!("{} #{}", suite_name_prefix, suite_index)`. -/
def suiteNameFor (cfg : Config) (i : Nat) : List Char :=
  cfg.namePre ++ ' ' :: '#' :: Nat.toDigits 10 i

/-- The failure case built in the `TestEvent::Failed` arm of src/main.rs:
type `"cargo test"`, message `format!("failed {}::{}", module_path, name)`. -/
def mkFailure (leaf modPath : List Char) (d : Int)
    (so se : Option (List Char)) : TestCaseM :=
  ⟨leaf, some modPath,
    .failure d ("cargo test".toList) ("failed ".toList ++ modPath ++ ':' :: ':' :: leaf) so se⟩

/-- `truncate` lifted over an optional capture, with its panic propagated. -/
def truncOpt (o : Option (List Char)) (maxLen : Nat) : Except PErr (Option (List Char)) :=
  match o with
  | none => .ok none
  | some l =>
    match truncate l maxLen with
    | some r => .ok (some r)
    | none => .error .truncPanic

/-- The test-scoped part of one `parse` loop iteration in src/main.rs: the
active suite is required first (`take().expect`), then `e.get_duration()` is
evaluated (it can panic), then the event kind is dispatched. -/
def stepTest (cfg : Config) (st : ParseState) (now : Int) (te : TestEvent)
    (durP : Option (Option Int)) : Except PErr ParseState :=
  match st.current with
  | none => .error .testOutsideSuite
  | some cur =>
    match durP with
    | none => .error .durationPanic
    | some duration =>
      match te with
      | .started n =>
        if lookupTest st.tests n ≠ none then .error .dupStart
        else .ok { st with tests := st.tests ++ [(n, now)] }
      | .ok n =>
        match lookupTest st.tests n with
        | none => .error .unknownTest
        | some _t0 =>
          .ok { st with
                tests := removeTest st.tests n,
                current := some { cur with cases := cur.cases ++
                  [⟨(split_name n).1, some (split_name n).2, .success duration⟩] } }
      | .failed n out err =>
        match lookupTest st.tests n with
        | none => .error .unknownTest
        | some t0 =>
          match detect_error out err with
          | some m =>
            match truncate m cfg.maxOutLen with
            | none => .error .truncPanic
            | some mo =>
              .ok { st with
                    tests := removeTest st.tests n,
                    current := some { cur with cases := cur.cases ++
                      [mkFailure (split_name n).1 (split_name n).2
                        (cfg.precision.trunc (duration.getD (now - t0))) (some mo) none] } }
          | none =>
            match truncOpt out cfg.maxOutLen with
            | .error pe => .error pe
            | .ok oo =>
              match truncOpt err cfg.maxOutLen with
              | .error pe => .error pe
              | .ok eo =>
                .ok { st with
                      tests := removeTest st.tests n,
                      current := some { cur with cases := cur.cases ++
                        [mkFailure (split_name n).1 (split_name n).2
                          (cfg.precision.trunc (duration.getD (now - t0))) oo eo] } }
      | .ignored n =>
        match lookupTest st.tests n with
        | none => .error .unknownTest
        | some _ =>
          .ok { st with
                tests := removeTest st.tests n,
                current := some { cur with cases := cur.cases ++ [⟨n, none, .skipped⟩] } }
      | .timeout _ => .ok st

/-- One `parse` loop iteration of src/main.rs on an already decoded event,
together with the wall-clock instant sampled while processing it. -/
def step (cfg : Config) (st : ParseState) (now : Int) (e : Event) : Except PErr ParseState :=
  match e with
  | .suite se =>
    match se with
    | .started _ =>
      if st.current ≠ none then .error .suiteActive
      else if st.tests ≠ [] then .error .pendingAtStart
      else .ok { st with
                 current := some ⟨suiteNameFor cfg st.suite_index, cfg.timestamp, []⟩,
                 suite_index := st.suite_index + 1 }
    | .ok _ _ | .failed _ _ =>
      if st.tests ≠ [] then .error .pendingAtEnd
      else
        match st.current with
        | none => .error .noSuiteAtEnd
        | some c => .ok { st with report := st.report ++ [c], current := none }
  | .testStringTime te dur exec =>
    stepTest cfg st now te (Event.get_duration (.testStringTime te dur exec))
  | .testFloatTime te dur exec =>
    stepTest cfg st now te (Event.get_duration (.testFloatTime te dur exec))

/-- The initial state of one `parse` run. -/
def initState : ParseState := ⟨[], 0, none, []⟩

/-- Folding `parse` over a stream of decoded events; the first panic aborts
the whole run. -/
def runAux (cfg : Config) : List (Int × Event) → ParseState → Except PErr ParseState
  | [], st => .ok st
  | (now, e) :: rest, st =>
    match step cfg st now e with
    | .ok st' => runAux cfg rest st'
    | .error pe => .error pe

/-- A whole `parse` run: the report is the suites accumulated at end of
input (an unfinished active suite is dropped, as in src/main.rs). -/
def parseRun (cfg : Config) (evs : List (Int × Event)) : Except PErr (List SuiteM) :=
  (runAux cfg evs initState).map ParseState.report

/-- `line.replace("\\", "\\\\")` from the decode retry in src/main.rs. -/
def doubleBackslashes (l : List Char) : List Char :=
  l.flatMap (fun c => if c = '\\' then ['\\', '\\'] else [c])

/-- The message `format!("Error parsing '{}': {}", &line, orig_err)` built
when both decode attempts fail.  Note that at that point `line` is the
shadowed, backslash-doubled line. -/
def errPayload (line e : List Char) : List Char :=
  "Error parsing ".toList ++ Char.ofNat 39 :: line ++ Char.ofNat 39 :: ':' :: ' ' :: e

/-- The decode-with-one-retry logic of src/main.rs, parameterised by the
external JSON decoder `dec` (serde is a third-party collaborator; its errors
are its message text). -/
def decodeLine (dec : List Char → Except (List Char) Event) (line : List Char) :
    Except (List Char) Event :=
  match dec line with
  | .ok e => .ok e
  | .error origErr =>
    match dec (doubleBackslashes line) with
    | .ok e => .ok e
    | .error _ => .error (errPayload (doubleBackslashes line) origErr)

/-- All suites created so far, in creation order: the completed ones followed
by the active one, if any. -/
def suitesOf (st : ParseState) : List SuiteM := st.report ++ st.current.toList

/-- Display name and timestamp of every created suite, in creation order. -/
def suiteKeys (st : ParseState) : List (List Char × Int) :=
  (suitesOf st).map (fun su => (su.name, su.timestamp))

/-- Whether an event is a `SuiteEvent::Started`. -/
def isStartEv : Event → Bool
  | .suite (.started _) => true
  | _ => false

/-- Number of `SuiteEvent::Started` events in a stream. -/
def countStarted (evs : List (Int × Event)) : Nat :=
  (evs.filter (fun p => isStartEv p.2)).length

/-- The suite-numbering invariant: the global counter equals the number of
suites created, and the suites created so far are named
`"<prefix> #0"`, …, `"<prefix> #(k-1)"` in order, all carrying the fixed run
timestamp. -/
def SuiteNamesOk (cfg : Config) (st : ParseState) (k : Nat) : Prop :=
  st.suite_index = k ∧
  suiteKeys st = (List.range k).map (fun i => (suiteNameFor cfg i, cfg.timestamp))

/-- A decoder that rejects every line: a stand-in for the external JSON
decoder on inputs it cannot parse either directly or after the repair. -/
def decFailAll : List Char → Except (List Char) Event := fun _ => .error ['E']

/-- A concrete configuration used by the witnesses. -/
def cfgEx : Config := ⟨['p'], 7, 65536, .milliSeconds⟩

/-! ## Theorems -/

theorem truncMarker_length : truncMarker.length = 17 := rfl

/-- Claim C2 counterexample: for `T` of length 18 and `N = 17`, the text does not
fit, yet the truncated output has length 19 > 17 — the claim that the result
has length at most `N` is false. -/
theorem truncate_len_cex :
    (truncate (List.replicate 18 'a') 17).map List.length = some 19 ∧ ¬ (19 ≤ 17) := by
  decide

/-- Claim C2 (amended): `truncate(T, N)` returns `T` unchanged when `len(T) ≤ N`;
otherwise (for `N ≥ 17`) it returns the first `half = (N − 17)/2` bytes, a
newline, the marker, a newline, and the last `half` bytes — a string of
length `2·half + 19`, which is at most `N + 2` (not `N`). -/
theorem truncate_spec (s t : List Char) (n m : Nat)
    (hfit : t.length ≤ m) (h17 : 17 ≤ n) (hlong : n < s.length) :
    truncate t m = some t
    ∧ truncate s n =
        some (s.take ((n - 17) / 2) ++
          '\n' :: (truncMarker ++ '\n' :: s.drop (s.length - (n - 17) / 2)))
    ∧ (s.take ((n - 17) / 2) ++
        '\n' :: (truncMarker ++ '\n' :: s.drop (s.length - (n - 17) / 2))).length ≤ n + 2 := by
  refine ⟨?_, ?_, ?_⟩
  · simp [truncate, Nat.not_lt.mpr hfit]
  · simp [truncate, hlong, truncMarker_length, h17]
  · have hhalf : (n - 17) / 2 ≤ s.length := by
      have : (n - 17) / 2 ≤ n - 17 := Nat.div_le_self _ _
      omega
    simp only [List.length_append, List.length_cons, List.length_take, List.length_drop,
      truncMarker_length]
    omega

/-- Claim C2 witness: the amended theorem applied at `T = 20` repeated bytes,
`N = 18`. -/
theorem truncate_spec_witness :
    truncate (List.replicate 17 'c') 18 = some (List.replicate 17 'c')
    ∧ truncate (List.replicate 20 'b') 18 =
        some ((List.replicate 20 'b').take ((18 - 17) / 2) ++
          '\n' :: (truncMarker ++ '\n' ::
            (List.replicate 20 'b').drop ((List.replicate 20 'b').length - (18 - 17) / 2)))
    ∧ ((List.replicate 20 'b').take ((18 - 17) / 2) ++
        '\n' :: (truncMarker ++ '\n' ::
          (List.replicate 20 'b').drop ((List.replicate 20 'b').length - (18 - 17) / 2))).length
        ≤ 18 + 2 :=
  truncate_spec (List.replicate 20 'b') (List.replicate 17 'c') 18 18
    (by decide) (by decide) (by decide)

/-- Claim C10: the truncation branch is well-defined only when
`max_len ≥ len("[...TRUNCATED...]") = 17`: for shorter bounds and oversize
text the `usize` subtraction underflows (modelled as `none`), while for
`max_len ≥ 17` the truncator is total and its byte-index splits are in
range. -/
theorem truncate_underflow (s t : List Char) (n m : Nat)
    (hn : n < 17) (hs : n < s.length) (hm : 17 ≤ m) :
    truncate s n = none
    ∧ (truncate t m).isSome = true
    ∧ (m < t.length → (m - 17) / 2 ≤ t.length ∧ t.length - (m - 17) / 2 ≤ t.length) := by
  refine ⟨?_, ?_, ?_⟩
  · simp [truncate, hs, truncMarker_length]
    omega
  · by_cases h : m < t.length
    · simp [truncate, h, truncMarker_length, hm]
    · simp [truncate, h]
  · intro h
    have : (m - 17) / 2 ≤ m - 17 := Nat.div_le_self _ _
    omega

/-- Claim C10 witness: the theorem applied at a 20-byte text with bounds 16
(underflow) and 17 (total). -/
theorem truncate_underflow_witness :
    truncate (List.replicate 20 'a') 16 = none
    ∧ (truncate (List.replicate 20 'd') 17).isSome = true
    ∧ (17 < (List.replicate 20 'd').length →
        (17 - 17) / 2 ≤ (List.replicate 20 'd').length
        ∧ (List.replicate 20 'd').length - (17 - 17) / 2 ≤ (List.replicate 20 'd').length) :=
  truncate_underflow (List.replicate 20 'a') (List.replicate 20 'd') 16 17
    (by decide) (by decide) (by decide)

/-- Claim C4: on a test-scoped event carrying both a milliseconds value and an
exec-time value (string or numeric), `get_duration` uses the exec-time value
(`seconds × 1e9`, truncated); it uses `ms × 1e6` only when exec-time is
absent, and resolves to "unspecified" (`none`) when both are absent. -/
theorem get_duration_precedence (te : TestEvent) (ms q sec : ℚ) (s : List Char)
    (hs : parseExecTime s = some q) :
    Event.get_duration (.testStringTime te (some ms) (some s))
        = some (some (truncQ (q * 1000000000)))
    ∧ Event.get_duration (.testFloatTime te (some ms) (some sec))
        = some (some (truncQ (sec * 1000000000)))
    ∧ Event.get_duration (.testStringTime te (some ms) none)
        = some (some (truncQ (ms * 1000000)))
    ∧ Event.get_duration (.testFloatTime te (some ms) none)
        = some (some (truncQ (ms * 1000000)))
    ∧ Event.get_duration (.testStringTime te none none) = some none
    ∧ Event.get_duration (.testFloatTime te none none) = some none := by
  refine ⟨?_, ?_, ?_, ?_, ?_, ?_⟩ <;> simp [Event.get_duration, hs]

/-- Claim C4 witness: the theorem applied at `ms = 3`, string exec-time `"2s"`
(which parses to 2 seconds) and numeric exec-time `7`. -/
theorem get_duration_precedence_witness :
    Event.get_duration (.testStringTime (.ok ['t']) (some 3) (some ("2s".toList)))
        = some (some (truncQ (2 * 1000000000)))
    ∧ Event.get_duration (.testFloatTime (.ok ['t']) (some 3) (some 7))
        = some (some (truncQ (7 * 1000000000)))
    ∧ Event.get_duration (.testStringTime (.ok ['t']) (some 3) none)
        = some (some (truncQ (3 * 1000000)))
    ∧ Event.get_duration (.testFloatTime (.ok ['t']) (some 3) none)
        = some (some (truncQ (3 * 1000000)))
    ∧ Event.get_duration (.testStringTime (.ok ['t']) none none) = some none
    ∧ Event.get_duration (.testFloatTime (.ok ['t']) none none) = some none :=
  get_duration_precedence (.ok ['t']) 3 2 7 ("2s".toList)
    (by simp [parseExecTime, parseDec, parseUnsignedDec, digitsVal])

/-- Claim C5: a string exec-time value `"2.5s"` resolves to exactly 2,500,000,000
integer nanoseconds, whatever the event kind and milliseconds field. -/
theorem get_duration_two_point_five (te : TestEvent) (dur : Option ℚ) :
    Event.get_duration (.testStringTime te dur (some ("2.5s".toList)))
      = some (some 2500000000) := by
  have h : parseExecTime ("2.5s".toList) = some (5 / 2 : ℚ) := by
    simp [parseExecTime, parseDec, parseUnsignedDec, digitsVal]
    norm_num
  have h2 : truncQ ((5 / 2 : ℚ) * 1000000000) = 2500000000 := by
    rw [truncQ]
    norm_num
  cases dur <;> simp [Event.get_duration] <;> exact ⟨5 / 2, h, h2⟩

theorem findError_append (pre l : List Char) (h1 : '\n' ∉ pre) (h2 : '^' ∉ pre) :
    findError (pre ++ l) = findError l := by
  induction pre with
  | nil => rfl
  | cons c cs ih =>
    simp only [List.mem_cons, not_or] at h1 h2
    rw [List.cons_append, findError, if_neg, ih h1.2 h2.2]
    rintro ⟨hc | hc, -⟩
    · exact h1.1 hc.symm
    · exact h2.1 hc.symm

/-- Claim C1 counterexample: with empty stderr and stdout
`"x\nError: boom\ny"`, the extractor returns nothing — not
`"Error: boom"` as the claim requires — because the regex
`[\n^]([Ee]rror: .+)$` is compiled without the multi-line flag, so `$` only
matches the very end of stdout. -/
theorem detect_error_cex :
    detect_error (some ("x\nError: boom\ny".toList)) (some []) = none
    ∧ (none : Option (List Char)) ≠ some ("Error: boom".toList) := by
  decide

/-- Claim C1 (amended): a stderr with non-whitespace content is returned verbatim;
otherwise the extractor returns a match of `[\n^]([Ee]rror: .+)$` on stdout,
trimmed — i.e. an `Error: ` line is only found when it is preceded by a
newline (or a literal `^` character) and extends, nonempty and
newline-free, to the very end of stdout; there is never more than one such
match, and stdout whose error line is followed by further lines yields
nothing. -/
theorem detect_error_spec (b pre t : List Char) (o : Option (List Char)) :
    (trimChars b ≠ [] → detect_error o (some b) = some b)
    ∧ ('\n' ∉ pre → '^' ∉ pre → t ≠ [] → (∀ c ∈ t, c ≠ '\n') →
        detect_error
          (some (pre ++ '\n' :: ('E' :: 'r' :: 'r' :: 'o' :: 'r' :: ':' :: ' ' :: t)))
          none
        = some (trimChars ('\n' :: 'E' :: 'r' :: 'r' :: 'o' :: 'r' :: ':' :: ' ' :: t))) := by
  constructor
  · intro hb
    simp [detect_error, hb]
  · intro h1 h2 ht hnl
    have htail : errTail ('E' :: 'r' :: 'r' :: 'o' :: 'r' :: ':' :: ' ' :: t) = true := by
      rw [errTail]
      simp only [Bool.and_eq_true, Bool.not_eq_eq_eq_not, Bool.not_true, List.all_eq_true]
      constructor
      · cases t with
        | nil => exact absurd rfl ht
        | cons a as => simp
      · intro c hc
        simpa using hnl c hc
    simp only [detect_error]
    rw [findError_append pre _ h1 h2, findError, if_pos ⟨Or.inl rfl, htail⟩]
    rfl

/-- Claim C1 witness: the amended theorem applied at stderr `"boom"` (returned
verbatim) and at stdout `"x\nError: boom"` whose error line reaches the end
of the text. -/
theorem detect_error_spec_witness :
    (detect_error none (some ("boom".toList)) = some ("boom".toList))
    ∧ detect_error
        (some (['x'] ++ '\n' :: ('E' :: 'r' :: 'r' :: 'o' :: 'r' :: ':' :: ' ' ::
          ("boom".toList))))
        none
      = some (trimChars ('\n' :: 'E' :: 'r' :: 'r' :: 'o' :: 'r' :: ':' :: ' ' ::
          ("boom".toList))) :=
  ⟨(detect_error_spec ("boom".toList) ['x'] ("boom".toList) none).1 (by decide),
   (detect_error_spec ("boom".toList) ['x'] ("boom".toList) none).2
     (by decide) (by decide) (by decide) (by decide)⟩

/-- Claim C3 counterexample: a decoder that rejects the raw line `{a\b` and its
repaired form: the resulting failure message embeds the backslash-doubled
line `{a\\b`, and the line as originally read is not contained in the
message. -/
theorem decodeLine_cex :
    decodeLine decFailAll (Char.ofNat 123 :: "a\\b".toList)
      = .error (errPayload (doubleBackslashes (Char.ofNat 123 :: "a\\b".toList)) ['E'])
    ∧ ¬ ((Char.ofNat 123 :: "a\\b".toList) <:+:
          errPayload (doubleBackslashes (Char.ofNat 123 :: "a\\b".toList)) ['E']) := by
  constructor
  · rfl
  · decide

/-- Claim C3 (amended): for every line that the decoder rejects both directly and
after the single backslash-doubling repair, the result is a decode failure
whose payload is built from the repaired (backslash-doubled) line — not the
line as originally read — together with the original parser error text, and
no further retries are performed. -/
theorem decodeLine_spec (dec : List Char → Except (List Char) Event)
    (line e₀ e₁ : List Char)
    (h0 : dec line = .error e₀) (h1 : dec (doubleBackslashes line) = .error e₁) :
    decodeLine dec line = .error (errPayload (doubleBackslashes line) e₀) := by
  simp [decodeLine, h0, h1]

/-- Claim C3 witness: the amended theorem applied to the all-rejecting decoder on
the line `a`. -/
theorem decodeLine_spec_witness :
    decodeLine decFailAll ['a'] = .error (errPayload (doubleBackslashes ['a']) ['E']) :=
  decodeLine_spec decFailAll ['a'] ['E'] ['E'] rfl rfl

theorem splitOnSep_ne_nil : ∀ l : List Char, splitOnSep l ≠ []
  | [] => by simp [splitOnSep]
  | [c] => by simp [splitOnSep]
  | c₁ :: c₂ :: rest => by
    rw [splitOnSep]
    split
    · simp
    · rcases hs : splitOnSep (c₂ :: rest) with _ | ⟨p, ps⟩ <;> simp

theorem joinSep_splitOnSep : ∀ l : List Char, joinSep (splitOnSep l) = l
  | [] => rfl
  | [c] => rfl
  | c₁ :: c₂ :: rest => by
    rw [splitOnSep]
    by_cases h : c₁ = ':' ∧ c₂ = ':'
    · rw [if_pos h]
      have ih := joinSep_splitOnSep rest
      rcases hs : splitOnSep rest with _ | ⟨p, ps⟩
      · exact absurd hs (splitOnSep_ne_nil rest)
      · rw [hs] at ih
        rw [joinSep, h.1, h.2, List.nil_append, ih]
    · rw [if_neg h]
      have ih := joinSep_splitOnSep (c₂ :: rest)
      rcases hs : splitOnSep (c₂ :: rest) with _ | ⟨p, ps⟩
      · exact absurd hs (splitOnSep_ne_nil _)
      · rw [hs] at ih
        rcases ps with _ | ⟨q, ps'⟩
        · rw [joinSep] at ih ⊢
          rw [ih]
        · rw [joinSep] at ih ⊢
          rw [List.cons_append, ih]

theorem two_le_length_splitOnSep (a b : List Char) :
    2 ≤ (splitOnSep (a ++ ':' :: ':' :: b)).length := by
  induction a with
  | nil =>
    rw [List.nil_append, splitOnSep, if_pos ⟨rfl, rfl⟩]
    rcases hs : splitOnSep b with _ | ⟨p, ps⟩
    · exact absurd hs (splitOnSep_ne_nil b)
    · simp
  | cons c a' ih =>
    rcases a' with _ | ⟨d, a''⟩
    · rw [List.cons_append, List.nil_append, splitOnSep]
      split
      · rcases hs : splitOnSep (':' :: b) with _ | ⟨p, ps⟩
        · exact absurd hs (splitOnSep_ne_nil _)
        · simp
      · rcases hs : splitOnSep (':' :: ':' :: b) with _ | ⟨p, ps⟩
        · exact absurd hs (splitOnSep_ne_nil _)
        · have h2 := ih
          rw [List.nil_append, hs] at h2
          simpa using h2
    · rw [List.cons_append, List.cons_append, splitOnSep]
      split
      · rcases hs : splitOnSep (a'' ++ ':' :: ':' :: b) with _ | ⟨p, ps⟩
        · exact absurd hs (splitOnSep_ne_nil _)
        · simp
      · rcases hs : splitOnSep (d :: (a'' ++ ':' :: ':' :: b)) with _ | ⟨p, ps⟩
        · exact absurd hs (splitOnSep_ne_nil _)
        · have h2 := ih
          rw [List.cons_append, hs] at h2
          simpa using h2

theorem exists_decomp_of_two_le :
    ∀ l : List Char, 2 ≤ (splitOnSep l).length → ∃ a b, a ++ ':' :: ':' :: b = l
  | [] => by simp [splitOnSep]
  | [c] => by simp [splitOnSep]
  | c₁ :: c₂ :: rest => by
    rw [splitOnSep]
    by_cases h : c₁ = ':' ∧ c₂ = ':'
    · rw [if_pos h]
      intro _
      exact ⟨[], rest, by rw [h.1, h.2, List.nil_append]⟩
    · rw [if_neg h]
      rcases hs : splitOnSep (c₂ :: rest) with _ | ⟨p, ps⟩
      · intro _
        exact absurd hs (splitOnSep_ne_nil _)
      · intro hlen
        have h2 : 2 ≤ (splitOnSep (c₂ :: rest)).length := by
          rw [hs]
          simpa using hlen
        obtain ⟨a, b, hab⟩ := exists_decomp_of_two_le (c₂ :: rest) h2
        exact ⟨c₁ :: a, b, by rw [List.cons_append, hab]⟩

theorem sep_isInfix_iff (l : List Char) :
    [':', ':'] <:+: l ↔ 2 ≤ (splitOnSep l).length := by
  constructor
  · rintro ⟨a, b, rfl⟩
    simpa using two_le_length_splitOnSep a b
  · intro h
    obtain ⟨a, b, hab⟩ := exists_decomp_of_two_le l h
    exact ⟨a, b, by simpa using hab⟩

theorem joinSep_dropLast_getLast :
    ∀ parts : List (List Char), 2 ≤ parts.length →
      joinSep parts.dropLast ++ ':' :: ':' :: (parts.getLast?.getD []) = joinSep parts
  | [], h => by simp at h
  | [p], h => by simp at h
  | p :: q :: ps, _ => by
    rcases ps with _ | ⟨r, ps'⟩
    · simp [joinSep]
    · have ih := joinSep_dropLast_getLast (q :: r :: ps') (by simp)
      show joinSep (p :: (q :: r :: ps').dropLast) ++ _ = _
      have hdl : (q :: r :: ps').dropLast = q :: (r :: ps').dropLast := rfl
      rw [hdl] at ih ⊢
      rw [joinSep, joinSep, List.getLast?_cons_cons, List.append_assoc, List.cons_append,
        List.cons_append]
      rw [joinSep] at ih
      rw [ih]
      rfl

/-- Claim C9: for every fully-qualified name containing the separator `"::"`,
joining `split_name`'s module path, the separator, and the leaf name
reproduces the original; for a name without the separator the module path is
empty and the leaf is the whole name. -/
theorem split_name_spec (full : List Char) :
    ([':', ':'] <:+: full →
      (split_name full).2 ++ ':' :: ':' :: (split_name full).1 = full)
    ∧ (¬ [':', ':'] <:+: full →
      (split_name full).2 = [] ∧ (split_name full).1 = full) := by
  have e1 : (split_name full).1 = (splitOnSep full).getLast?.getD [] := rfl
  have e2 : (split_name full).2 = joinSep (splitOnSep full).dropLast := rfl
  constructor
  · intro h
    have h2 := (sep_isInfix_iff full).mp h
    have h3 := joinSep_dropLast_getLast (splitOnSep full) h2
    rw [e1, e2, h3, joinSep_splitOnSep]
  · intro h
    have h2 : ¬ 2 ≤ (splitOnSep full).length := fun hh => h ((sep_isInfix_iff full).mpr hh)
    rcases hs : splitOnSep full with _ | ⟨p, ps⟩
    · exact absurd hs (splitOnSep_ne_nil full)
    · rcases ps with _ | ⟨q, ps'⟩
      · have hj := joinSep_splitOnSep full
        rw [hs, joinSep] at hj
        constructor
        · rw [e2, hs]
          rfl
        · rw [e1, hs]
          simpa using hj
      · rw [hs] at h2
        simp at h2

/-- Claim C9 witness: the theorem applied at `"m::t"` (one separator) and at
`"ab"` (no separator). -/
theorem split_name_spec_witness :
    ((split_name ("m::t".toList)).2 ++ ':' :: ':' :: (split_name ("m::t".toList)).1
      = "m::t".toList)
    ∧ ((split_name ("ab".toList)).2 = [] ∧ (split_name ("ab".toList)).1 = "ab".toList) :=
  ⟨(split_name_spec ("m::t".toList)).1 (by decide),
   (split_name_spec ("ab".toList)).2 (by decide)⟩

theorem runAux_append (cfg : Config) (xs ys : List (Int × Event)) (st : ParseState) :
    runAux cfg (xs ++ ys) st =
      match runAux cfg xs st with
      | .ok s => runAux cfg ys s
      | .error pe => .error pe := by
  induction xs generalizing st with
  | nil => simp [runAux]
  | cons p xs ih =>
    rcases p with ⟨now, e⟩
    rw [List.cons_append, runAux, runAux]
    rcases h : step cfg st now e with pe | st'
    · rfl
    · exact ih st'

theorem runAux_cons (cfg : Config) (now : Int) (e : Event) (rest : List (Int × Event))
    (st : ParseState) :
    runAux cfg ((now, e) :: rest) st =
      match step cfg st now e with
      | .ok st' => runAux cfg rest st'
      | .error pe => .error pe := rfl

/-- Claim C6 counterexample: a `TestOk` event with both duration fields absent is
recorded as a Success case with no duration at all — the wall-clock elapsed
time (here `5 − 0`) is not used, contrary to the claim (in the `Ok` arm of
src/main.rs the sampled `now` and the removed `detail` are dead variables). -/
theorem testOk_no_wallclock_cex :
    runAux cfgEx
        [(0, .suite (.started 1)),
         (0, .testStringTime (.started (['m', ':', ':', 't'])) none none),
         (5, .testStringTime (.ok (['m', ':', ':', 't'])) none none)] initState =
      .ok ⟨[], 1, some ⟨['p', ' ', '#', '0'], 7, [⟨['t'], some ['m'], .success none⟩]⟩, []⟩
    ∧ CaseStatus.success none ≠ .success (some (5 - 0)) := by
  constructor
  · rfl
  · decide

/-- Claim C6 (amended): processing `TestOk(n)` while a suite is active with `n`
pending removes `n` from the pending map and appends a Success case whose
name and classname come from splitting `n`, and whose duration is exactly
the optional duration resolved from the event's own fields — when those
fields are absent the case carries no duration; the wall-clock fallback is
not applied in the success path. -/
theorem testOk_success (cfg : Config) (st : ParseState) (now : Int) (n : List Char)
    (dur : Option ℚ) (exec : Option (List Char)) (d : Option Int) (t0 : Int) (cur : SuiteM)
    (hcur : st.current = some cur)
    (hfind : lookupTest st.tests n = some t0)
    (hd : Event.get_duration (.testStringTime (.ok n) dur exec) = some d) :
    step cfg st now (.testStringTime (.ok n) dur exec) =
      .ok { st with
            tests := removeTest st.tests n,
            current := some { cur with cases := cur.cases ++
              [⟨(split_name n).1, some (split_name n).2, .success d⟩] } } := by
  rw [step, hd, stepTest, hcur]
  simp [hfind]

/-- Claim C6 witness: the amended theorem applied in a state with suite `"s"`
active and test `"t"` pending since instant 2, processing its `TestOk` at
instant 9 with no duration fields. -/
theorem testOk_success_witness :
    step cfgEx ⟨[], 1, some ⟨['s'], 7, []⟩, [(['t'], 2)]⟩ 9
        (.testStringTime (.ok ['t']) none none) =
      .ok { (⟨[], 1, some ⟨['s'], 7, []⟩, [(['t'], 2)]⟩ : ParseState) with
            tests := removeTest [(['t'], 2)] ['t'],
            current := some { (⟨['s'], 7, []⟩ : SuiteM) with cases := [] ++
              [⟨(split_name ['t']).1, some (split_name ['t']).2, .success none⟩] } } :=
  testOk_success cfgEx ⟨[], 1, some ⟨['s'], 7, []⟩, [(['t'], 2)]⟩ 9 ['t'] none none
    none 2 ⟨['s'], 7, []⟩ rfl (by decide) rfl

/-- Claim C7: a `SuiteOk` or `SuiteFailed` event arriving while the pending-test
map is nonempty aborts the whole run with the pending-nonempty protocol
violation, whatever follows in the stream — no report is produced. -/
theorem suite_end_pending_aborts (cfg : Config) (pre rest : List (Int × Event))
    (now : Int) (s : ParseState) (se : SuiteEvent) (p f : Nat)
    (hpre : runAux cfg pre initState = .ok s)
    (hne : s.tests ≠ [])
    (hse : se = SuiteEvent.ok p f ∨ se = SuiteEvent.failed p f) :
    parseRun cfg (pre ++ (now, Event.suite se) :: rest) = .error .pendingAtEnd := by
  have hstep : step cfg s now (Event.suite se) = .error .pendingAtEnd := by
    rcases hse with rfl | rfl <;> simp [step, hne]
  unfold parseRun
  rw [runAux_append, hpre]
  show Except.map ParseState.report (runAux cfg ((now, Event.suite se) :: rest) s)
      = Except.error PErr.pendingAtEnd
  rw [runAux_cons, hstep]
  rfl

/-- Claim C7 witness: the theorem applied to a stream whose suite starts, starts
test `"t"`, and then emits `SuiteOk` with `"t"` still pending. -/
theorem suite_end_pending_aborts_witness :
    parseRun cfgEx
        ([(0, .suite (.started 1)), (0, .testStringTime (.started ['t']) none none)] ++
          (3, Event.suite (.ok 1 0)) :: []) =
      .error .pendingAtEnd :=
  suite_end_pending_aborts cfgEx
    [(0, .suite (.started 1)), (0, .testStringTime (.started ['t']) none none)] [] 3
    ⟨[], 1, some ⟨['p', ' ', '#', '0'], 7, []⟩, [(['t'], 0)]⟩ (.ok 1 0) 1 0
    rfl (by decide) (Or.inl rfl)

theorem stepTest_keys (cfg : Config) (st : ParseState) (now : Int) (te : TestEvent)
    (dp : Option (Option Int)) (st' : ParseState)
    (h : stepTest cfg st now te dp = .ok st') :
    st'.suite_index = st.suite_index ∧ suiteKeys st' = suiteKeys st := by
  rw [stepTest] at h
  repeat' split at h
  all_goals
    first
      | exact Except.noConfusion h
      | (injection h with h
         subst h
         refine ⟨rfl, ?_⟩
         simp_all [suiteKeys, suitesOf])

theorem step_inv (cfg : Config) (st : ParseState) (now : Int) (e : Event)
    (st' : ParseState) (k : Nat)
    (hiv : SuiteNamesOk cfg st k) (h : step cfg st now e = .ok st') :
    SuiteNamesOk cfg st' (if isStartEv e then k + 1 else k) := by
  obtain ⟨hidx, hkeys⟩ := hiv
  rcases e with se | ⟨te, dur, exec⟩ | ⟨te, dur, exec⟩
  · rcases se with tc | ⟨p, f⟩ | ⟨p, f⟩
    · rw [show (if isStartEv (Event.suite (SuiteEvent.started tc)) then k + 1 else k) = k + 1
        from if_pos rfl]
      rw [step] at h
      split at h
      · exact absurd h (by simp)
      · rename_i hc
        split at h
        · exact absurd h (by simp)
        · injection h with h
          subst h
          have hcur : st.current = none := not_not.mp hc
          have hkeys' : st.report.map (fun su => (su.name, su.timestamp))
              = (List.range k).map (fun i => (suiteNameFor cfg i, cfg.timestamp)) := by
            simpa [suiteKeys, suitesOf, hcur] using hkeys
          refine ⟨by simp [hidx], ?_⟩
          simp [suiteKeys, suitesOf, List.range_succ, hkeys', hidx]
    · rw [show (if isStartEv (Event.suite (SuiteEvent.ok p f)) then k + 1 else k) = k
        from if_neg (by simp [isStartEv])]
      rw [step] at h
      split at h
      · exact absurd h (by simp)
      · split at h
        · exact absurd h (by simp)
        · rename_i cur hcur
          injection h with h
          subst h
          refine ⟨by simpa using hidx, ?_⟩
          rw [← hkeys]
          simp [suiteKeys, suitesOf, hcur]
    · rw [show (if isStartEv (Event.suite (SuiteEvent.failed p f)) then k + 1 else k) = k
        from if_neg (by simp [isStartEv])]
      rw [step] at h
      split at h
      · exact absurd h (by simp)
      · split at h
        · exact absurd h (by simp)
        · rename_i cur hcur
          injection h with h
          subst h
          refine ⟨by simpa using hidx, ?_⟩
          rw [← hkeys]
          simp [suiteKeys, suitesOf, hcur]
  · rw [show (if isStartEv (Event.testStringTime te dur exec) then k + 1 else k) = k
      from if_neg (by simp [isStartEv])]
    rw [step] at h
    obtain ⟨hi, hk⟩ := stepTest_keys cfg st now te _ st' h
    exact ⟨hi.trans hidx, hk.trans hkeys⟩
  · rw [show (if isStartEv (Event.testFloatTime te dur exec) then k + 1 else k) = k
      from if_neg (by simp [isStartEv])]
    rw [step] at h
    obtain ⟨hi, hk⟩ := stepTest_keys cfg st now te _ st' h
    exact ⟨hi.trans hidx, hk.trans hkeys⟩

theorem countStarted_cons (now : Int) (e : Event) (rest : List (Int × Event)) :
    countStarted ((now, e) :: rest) =
      (if isStartEv e then 1 else 0) + countStarted rest := by
  by_cases h : isStartEv e <;> simp [countStarted, h, Nat.add_comm]

theorem runAux_inv (cfg : Config) (evs : List (Int × Event)) (st s : ParseState) (k : Nat)
    (hiv : SuiteNamesOk cfg st k) (h : runAux cfg evs st = .ok s) :
    SuiteNamesOk cfg s (k + countStarted evs) := by
  induction evs generalizing st k with
  | nil =>
    rw [runAux] at h
    injection h with h
    subst h
    simpa [countStarted] using hiv
  | cons p rest ih =>
    rcases p with ⟨now, e⟩
    rw [runAux_cons] at h
    rcases hstep : step cfg st now e with pe | st₁ <;> rw [hstep] at h
    · simp at h
    · have h1 := step_inv cfg st now e st₁ k hiv hstep
      have h2 := ih st₁ _ h1 h
      rw [countStarted_cons]
      by_cases hb : isStartEv e
      · rw [if_pos hb] at h2
        rw [show k + ((if isStartEv e then 1 else 0) + countStarted rest)
            = k + 1 + countStarted rest from by rw [if_pos hb]; omega]
        exact h2
      · rw [if_neg hb] at h2
        rw [show k + ((if isStartEv e then 1 else 0) + countStarted rest)
            = k + countStarted rest from by rw [if_neg hb]; omega]
        exact h2

/-- Claim C8: over one whole run, each `SuiteStarted` creates a suite numbered by
the single global counter starting at 0 and incremented by exactly one per
`SuiteStarted` regardless of suite outcomes; the suites created are named
`"<prefix> #0"`, `"<prefix> #1"`, … in order and all carry the one fixed run
timestamp. -/
theorem suite_numbering (cfg : Config) (evs : List (Int × Event)) (s : ParseState)
    (h : runAux cfg evs initState = .ok s) :
    s.suite_index = countStarted evs
    ∧ (suitesOf s).map SuiteM.name = (List.range (countStarted evs)).map (suiteNameFor cfg)
    ∧ ∀ su ∈ suitesOf s, su.timestamp = cfg.timestamp := by
  have h0 : SuiteNamesOk cfg initState 0 := by
    constructor
    · rfl
    · simp [suiteKeys, suitesOf, initState]
  have hinv := runAux_inv cfg evs initState s 0 h0 h
  rw [SuiteNamesOk] at hinv
  obtain ⟨h1, h2⟩ := hinv
  rw [Nat.zero_add] at h1 h2
  refine ⟨h1, ?_, ?_⟩
  · have h3 := congrArg (List.map Prod.fst) h2
    simpa [suiteKeys, List.map_map, Function.comp] using h3
  · intro su hsu
    have hmem : (su.name, su.timestamp) ∈ suiteKeys s := by
      rw [suiteKeys]
      exact List.mem_map.mpr ⟨su, hsu, rfl⟩
    rw [h2] at hmem
    obtain ⟨i, _, hpair⟩ := List.mem_map.mp hmem
    exact (congrArg Prod.snd hpair).symm

/-- Claim C8 witness: the theorem applied to a stream with one completed suite and
a second started suite: indices 0 and 1, names `"p #0"` and `"p #1"`, shared
timestamp. -/
theorem suite_numbering_witness :
    (ParseState.suite_index
        ⟨[⟨['p', ' ', '#', '0'], 7, []⟩], 2, some ⟨['p', ' ', '#', '1'], 7, []⟩, []⟩)
      = countStarted
          [(0, .suite (.started 1)), (1, .suite (.ok 0 0)), (2, .suite (.started 1))]
    ∧ (suitesOf
          ⟨[⟨['p', ' ', '#', '0'], 7, []⟩], 2, some ⟨['p', ' ', '#', '1'], 7, []⟩, []⟩).map
            SuiteM.name
        = (List.range (countStarted
            [(0, .suite (.started 1)), (1, .suite (.ok 0 0)), (2, .suite (.started 1))])).map
              (suiteNameFor cfgEx)
    ∧ ∀ su ∈ suitesOf
          ⟨[⟨['p', ' ', '#', '0'], 7, []⟩], 2, some ⟨['p', ' ', '#', '1'], 7, []⟩, []⟩,
        su.timestamp = cfgEx.timestamp :=
  suite_numbering cfgEx
    [(0, .suite (.started 1)), (1, .suite (.ok 0 0)), (2, .suite (.started 1))]
    ⟨[⟨['p', ' ', '#', '0'], 7, []⟩], 2, some ⟨['p', ' ', '#', '1'], 7, []⟩, []⟩
    rfl

end CargoToJunit
